import Mathlib

/-!
Verification of the trivia-card generator (`card_generator.py`,
`card_generator_v2.py`, and the render interface used by `app.py`).

Strings are modelled as `List Char`; the PDF measurement service
(`pdfmetrics.stringWidth` at a fixed font and size) is modelled as an
abstract width function `List Char → ℚ`; real-valued layout arithmetic is
modelled over `ℚ` (the float computations involved are all exact-form
algebra; the claims checked here are algebraic identities or discrete
facts).  Fallible Python code (functions that `raise`) is modelled with
`Except`.
-/

namespace TriviaCards

/-- Character strings, modelled as lists of characters. -/
abbrev Str := List Char

/-- Whitespace predicate used by Python `str.strip()` / `str.split()`,
restricted to the ASCII whitespace characters (space, tab, newline,
carriage return, vertical tab, form feed).  The load-bearing fact for the
claims below is that U+FEFF (the byte-order mark) is *not* whitespace for
Python's `strip`, which this model preserves. -/
def isPySpace (c : Char) : Bool :=
  c = ' ' || c = '\t' || c = '\n' || c = '\x0d' || c = '\x0b' || c = '\x0c'

/-- The byte-order-mark character U+FEFF. -/
def bomChar : Char := '\uFEFF'

/-- Python `s.replace(BOM, "")` where BOM is U+FEFF: removes every
occurrence of the byte-order mark (the pattern is a single character, so
`replace` with the empty replacement is exactly a filter). -/
def removeBom (s : Str) : Str :=
  s.filter (fun c => c ≠ bomChar)

/-- Python `s.strip()`: drop leading and trailing whitespace. -/
def pyStrip (s : Str) : Str :=
  ((s.dropWhile isPySpace).reverse.dropWhile isPySpace).reverse

/-- `_clean` from `card_generator_v2.py` lines 71-72 (identical to
`card_generator.py` lines 54-55): `(s or "").strip().replace(BOM, "")`,
with BOM = U+FEFF.  Note the order: strip first, then BOM removal.  The
`or ""` guard against `None` is vacuous here since inputs are strings. -/
def _clean (s : Str) : Str :=
  removeBom (pyStrip s)

/-- Python `text.split()` (no separator argument): split on runs of
whitespace, discarding empty tokens; `"".split() == []`. -/
def pySplit (s : Str) : List Str :=
  (s.splitOnP isPySpace).filter (fun w => w ≠ [])

namespace V2

/-- The word-accumulation loop of `wrap_text` (`card_generator_v2.py`
lines 85-94): starting from the first word, each further word is
tentatively appended with a separating space; if the candidate still fits
in `maxW` it becomes the current line, otherwise the current line is
closed and the word starts a new one.  `sw` is the measurement service
`_string_width(-, font, size)` at the fixed font and size. -/
def greedyLines (sw : Str → ℚ) (maxW : ℚ) : Str → List Str → List Str
  | current, [] => [current]
  | current, w :: ws =>
    let candidate := current ++ ' ' :: w
    if sw candidate ≤ maxW then greedyLines sw maxW candidate ws
    else current :: greedyLines sw maxW w ws

/-- One character step of the hard-split loop of `wrap_text`
(`card_generator_v2.py` lines 102-110): state is (emitted chunks, current
chunk). -/
def hardSplitStep (sw : Str → ℚ) (maxW : ℚ) (acc : List Str × Str) (ch : Char) :
    List Str × Str :=
  let cand := acc.2 ++ [ch]
  if sw cand ≤ maxW then (acc.1, cand)
  else if acc.2.isEmpty then (acc.1, [ch])
  else (acc.1 ++ [acc.2], [ch])

/-- Hard character-by-character split of one overwide line
(`card_generator_v2.py` lines 102-112). -/
def hardSplit (sw : Str → ℚ) (maxW : ℚ) (line : Str) : List Str :=
  let st := line.foldl (hardSplitStep sw maxW) ([], [])
  if st.2.isEmpty then st.1 else st.1 ++ [st.2]

/-- `wrap_text` from `card_generator_v2.py` lines 79-113.  The `font` and
`size` arguments are absorbed into the abstract width function `sw`
(modelling `_string_width(-, font, size)`). -/
def wrap_text (sw : Str → ℚ) (maxW : ℚ) (text : Str) : List Str :=
  match pySplit text with
  | [] => [[]]
  | w :: ws =>
    (greedyLines sw maxW w ws).flatMap (fun line =>
      if sw line ≤ maxW then [line] else hardSplit sw maxW line)

end V2

namespace Legacy

/-- The word-accumulation loop of the legacy `wrap_text`
(`card_generator.py` lines 133-143); same role as `V2.greedyLines`. -/
def greedyLines (sw : Str → ℚ) (maxW : ℚ) : Str → List Str → List Str
  | current, [] => [current]
  | current, w :: ws =>
    let candidate := current ++ ' ' :: w
    if sw candidate ≤ maxW then greedyLines sw maxW candidate ws
    else current :: greedyLines sw maxW w ws

/-- One character step of the legacy hard-split loop
(`card_generator.py` lines 152-160). -/
def hardSplitStep (sw : Str → ℚ) (maxW : ℚ) (acc : List Str × Str) (ch : Char) :
    List Str × Str :=
  let cand := acc.2 ++ [ch]
  if sw cand ≤ maxW then (acc.1, cand)
  else if acc.2.isEmpty then (acc.1, [ch])
  else (acc.1 ++ [acc.2], [ch])

/-- Legacy hard split of one overwide line (`card_generator.py`
lines 146-162). -/
def hardSplit (sw : Str → ℚ) (maxW : ℚ) (line : Str) : List Str :=
  let st := line.foldl (hardSplitStep sw maxW) ([], [])
  if st.2.isEmpty then st.1 else st.1 ++ [st.2]

/-- `wrap_text` from `card_generator.py` lines 125-164. -/
def wrap_text (sw : Str → ℚ) (maxW : ℚ) (text : Str) : List Str :=
  match pySplit text with
  | [] => [[]]
  | w :: ws =>
    (greedyLines sw maxW w ws).flatMap (fun line =>
      if sw line ≤ maxW then [line] else hardSplit sw maxW line)

end Legacy

/-- One question of a card (`card_generator_v2.py` lines 27-31). -/
structure Question where
  subject : Str
  text : Str
  answer : Str
deriving DecidableEq, Repr

/-- A card: a difficulty level plus its questions
(`card_generator_v2.py` lines 34-37). -/
structure Card where
  level : Str
  questions : List Question
deriving DecidableEq, Repr

/-- One CSV data row as produced by `csv.DictReader` for the v2 loader:
the values of the `level`, `subject`, `question` and `answer` columns. -/
structure CsvRow where
  level : Str
  subject : Str
  question : Str
  answer : Str
deriving DecidableEq, Repr

/-- The `ValueError`s raised by `load_cards_from_csv`
(`card_generator_v2.py` lines 131-132, 148-152, 156-161), as structured
values: the empty-subject error, the incomplete-card error (level,
1-based card index within the level, actual question count), and the
duplicate-subject error (level, 1-based card index). -/
inductive LoadError where
  | emptySubject
  | incompleteCard (level : Str) (cardIdx : ℕ) (count : ℕ)
  | duplicateSubject (level : Str) (cardIdx : ℕ)
deriving DecidableEq, Repr

/-- Append a question to the group of its level, creating the group at the
end on first sight — the order-preserving model of
`level_groups[level].append(q)` over an insertion-ordered `dict`
(`card_generator_v2.py` lines 136-138). -/
def addRow (groups : List (Str × List Question)) (level : Str) (q : Question) :
    List (Str × List Question) :=
  match groups with
  | [] => [(level, [q])]
  | g :: gs =>
    if g.1 = level then (g.1, g.2 ++ [q]) :: gs
    else g :: addRow gs level q

/-- The row loop of `load_cards_from_csv` (`card_generator_v2.py`
lines 124-138): clean all four fields, reject an empty cleaned subject,
and group the questions by level in first-seen order.  `acc` is the
groups built so far. -/
def buildGroups : List CsvRow → List (Str × List Question) →
    Except LoadError (List (Str × List Question))
  | [], acc => .ok acc
  | r :: rs, acc =>
    let level := _clean r.level
    let subject := _clean r.subject
    let question := _clean r.question
    let answer := _clean r.answer
    if subject = [] then .error .emptySubject
    else buildGroups rs (addRow acc level ⟨subject, question, answer⟩)

/-- `questions[i:i+k]` chunking, i.e. `for i in range(0, len(questions), k)`
(`card_generator_v2.py` line 144).  Implemented with a fuel parameter
(the list length) so it is structurally recursive and kernel-computable;
for `k = 0` Python's `range` raises, and all theorems below assume
`0 < k`. -/
def chunkGo (k : ℕ) : ℕ → List α → List (List α)
  | _, [] => []
  | 0, _ => []
  | fuel + 1, l => l.take k :: chunkGo k fuel (l.drop k)

/-- Split a list into consecutive chunks of `k` (last chunk may be
shorter). -/
def chunkList (k : ℕ) (l : List α) : List (List α) :=
  chunkGo k l.length l

/-- The per-level card-building loop of `load_cards_from_csv`
(`card_generator_v2.py` lines 144-163): for each consecutive chunk,
reject fewer than 6 questions, then reject duplicate subjects
(`len(card_subjects) != len(set(card_subjects))`, i.e. the subject list
is not `Nodup`), else emit the card.  `n` is the 1-based card index
`i // 6 + 1`. -/
def cardsOfLevel (level : Str) : List (List Question) → ℕ →
    Except LoadError (List Card)
  | [], _ => .ok []
  | ch :: chs, n =>
    if ch.length < 6 then .error (.incompleteCard level n ch.length)
    else if (ch.map Question.subject).Nodup then
      match cardsOfLevel level chs (n + 1) with
      | .error e => .error e
      | .ok rest => .ok (⟨level, ch⟩ :: rest)
    else .error (.duplicateSubject level n)

/-- The card-emitting loop over the level groups
(`card_generator_v2.py` lines 141-163), in group order. -/
def cardsFromGroups : List (Str × List Question) → Except LoadError (List Card)
  | [] => .ok []
  | (level, qs) :: gs =>
    match cardsOfLevel level (chunkList 6 qs) 1 with
    | .error e => .error e
    | .ok cs =>
      match cardsFromGroups gs with
      | .error e => .error e
      | .ok rest => .ok (cs ++ rest)

/-- `load_cards_from_csv` from `card_generator_v2.py` lines 116-165, with
the CSV file already parsed by `csv.DictReader` into its row dicts (file
I/O and CSV tokenization are external collaborators). -/
def load_cards_from_csv (rows : List CsvRow) : Except LoadError (List Card) :=
  match buildGroups rows [] with
  | .error e => .error e
  | .ok groups => cardsFromGroups groups

/-- One point = 1/72 inch; `mm` from `reportlab.lib.units` is
`72 / 25.4` points, exact as a rational. -/
def mmUnit : ℚ := 72 / (254 / 10)

/-- ISO A4 in points: 210mm x 297mm (`reportlab.lib.pagesizes.A4`). -/
def a4 : ℚ × ℚ := (210 * mmUnit, 297 * mmUnit)

/-- `LayoutConfig` from `card_generator_v2.py` lines 40-68.  Lengths and
font sizes are rationals; grid cell counts are naturals (Python ints,
nonnegative by the data-model invariant). -/
structure LayoutConfig where
  page_size : ℚ × ℚ := a4
  cols : ℕ := 2
  rows : ℕ := 4
  margin : ℚ := 10 * mmUnit
  gutter_x : ℚ := 4 * mmUnit
  gutter_y : ℚ := 4 * mmUnit
  corner_radius : ℚ := 3 * mmUnit
  border_width : ℚ := 1
  padding : ℚ := 5 * mmUnit
  header_height : ℚ := 8 * mmUnit
  badge_w : ℚ := 10 * mmUnit
  badge_h : ℚ := 6 * mmUnit
  badge_margin : ℚ := 2 * mmUnit
  font_name : Str := ['H','e','l','v','e','t','i','c','a']
  font_name_bold : Str := ['H','e','l','v','e','t','i','c','a','-','B','o','l','d']
  font_size_body : ℚ := 9
  font_size_header : ℚ := 10
  font_size_subject : ℚ := 7

/-- `grid_geometry` from `card_generator_v2.py` lines 168-178 (the legacy
`card_generator.py` lines 181-191 are identical): page size, then card
width/height carved out of the usable area.  `(cols : ℚ) - 1` models
Python's `cfg.cols - 1` over ints embedded in float arithmetic. -/
def grid_geometry (cfg : LayoutConfig) : ℚ × ℚ × ℚ × ℚ :=
  let page_w := cfg.page_size.1
  let page_h := cfg.page_size.2
  let total_gutter_x := cfg.gutter_x * ((cfg.cols : ℚ) - 1)
  let total_gutter_y := cfg.gutter_y * ((cfg.rows : ℚ) - 1)
  let usable_w := page_w - 2 * cfg.margin - total_gutter_x
  let usable_h := page_h - 2 * cfg.margin - total_gutter_y
  let card_w := usable_w / (cfg.cols : ℚ)
  let card_h := usable_h / (cfg.rows : ℚ)
  (page_w, page_h, card_w, card_h)

/-- `card_xy` from `render_pdf` (`card_generator_v2.py` lines 325-328,
identical in `card_generator.py` lines 259-263): lower-left corner of the
grid cell at logical `(col, row)`, row 0 topmost. -/
def card_xy (cfg : LayoutConfig) (card_w card_h : ℚ) (col row : ℕ) : ℚ × ℚ :=
  let x := cfg.margin + (col : ℚ) * (card_w + cfg.gutter_x)
  let y := cfg.page_size.2 - cfg.margin - ((row : ℚ) + 1) * card_h - (row : ℚ) * cfg.gutter_y
  (x, y)

/-- Geometric draw calls issued to the document surface.  Pure state
setters (colors, fonts, line widths) carry no geometry and are not
recorded. -/
inductive DrawOp where
  | roundRect (x y w h radius : ℚ)
  | ellipse (x1 y1 x2 y2 : ℚ)
  | text (x y : ℚ) (s : Str)
deriving DecidableEq, Repr

/-- The strings drawn by a sequence of draw calls, in drawing order. -/
def stringsDrawn (ops : List DrawOp) : List Str :=
  ops.filterMap (fun op =>
    match op with
    | .text _ _ s => some s
    | _ => none)

/-- `draw_subject_badge` from `card_generator_v2.py` lines 181-197:
filled oval plus the subject code centered inside it.  `sw` is the
measurement service `_string_width(text, font, size)`. -/
def draw_subject_badge (sw : Str → Str → ℚ → ℚ) (cfg : LayoutConfig)
    (x y : ℚ) (subject : Str) : List DrawOp :=
  let subj_w := sw subject cfg.font_name_bold cfg.font_size_subject
  let text_x := x + (cfg.badge_w - subj_w) / 2
  let text_y := y + (cfg.badge_h - cfg.font_size_subject) / 2
  [.ellipse x y (x + cfg.badge_w) (y + cfg.badge_h), .text text_x text_y subject]

/-- The body of the per-question loop of `draw_card_questions`
(`card_generator_v2.py` lines 222-248): skip an empty question, draw the
position badge, then draw at most the first 2 wrapped lines
(`lines[:2]`). -/
def questionRowOps (sw : Str → Str → ℚ → ℚ) (cfg : LayoutConfig)
    (x y card_w card_h : ℚ) (i : ℕ) (q : Question) : List DrawOp :=
  if q.text = [] then []
  else
    let questions_start_y := y + card_h - cfg.padding - cfg.header_height - cfg.padding
    let available_height := card_h - 2 * cfg.padding - cfg.header_height
    let question_height := available_height / 6
    let q_y := questions_start_y - (i : ℚ) * question_height
    let badge_x := x + cfg.padding
    let badge_y := q_y - cfg.badge_h / 2
    let text_x := badge_x + cfg.badge_w + cfg.badge_margin
    let text_width := card_w - 2 * cfg.padding - cfg.badge_w - cfg.badge_margin
    let lines := V2.wrap_text (fun t => sw t cfg.font_name cfg.font_size_body)
      text_width q.text
    let line_height := cfg.font_size_body * (12 / 10)
    let total_text_height := ((lines.take 2).length : ℚ) * line_height
    let text_start_y := badge_y + (cfg.badge_h + total_text_height) / 2 - line_height / 2
    draw_subject_badge sw cfg badge_x badge_y q.subject ++
      (lines.take 2).enum.map (fun jl =>
        .text text_x (text_start_y - (jl.1 : ℚ) * line_height) jl.2)

/-- `draw_card_questions` from `card_generator_v2.py` lines 200-248:
border, level header, then the six question rows. -/
def draw_card_questions (sw : Str → Str → ℚ → ℚ) (cfg : LayoutConfig)
    (x y card_w card_h : ℚ) (card : Card) : List DrawOp :=
  [.roundRect x y card_w card_h cfg.corner_radius,
   .text (x + cfg.padding) (y + card_h - cfg.padding - cfg.font_size_header) card.level]
  ++ card.questions.enum.flatMap (fun iq =>
      questionRowOps sw cfg x y card_w card_h iq.1 iq.2)

/-- The body of the per-answer loop of `draw_card_answers`
(`card_generator_v2.py` lines 289-315): skip an empty answer, draw the
position badge, then draw at most the first 2 wrapped lines
(`lines[:2]`). -/
def answerRowOps (sw : Str → Str → ℚ → ℚ) (cfg : LayoutConfig)
    (x y card_w card_h : ℚ) (i : ℕ) (q : Question) : List DrawOp :=
  if q.answer = [] then []
  else
    let answers_start_y := y + card_h - cfg.padding - cfg.header_height - cfg.padding
    let available_height := card_h - 2 * cfg.padding - cfg.header_height
    let answer_height := available_height / 6
    let a_y := answers_start_y - (i : ℚ) * answer_height
    let badge_x := x + cfg.padding
    let badge_y := a_y - cfg.badge_h / 2
    let text_x := badge_x + cfg.badge_w + cfg.badge_margin
    let text_width := card_w - 2 * cfg.padding - cfg.badge_w - cfg.badge_margin
    let lines := V2.wrap_text (fun t => sw t cfg.font_name cfg.font_size_body)
      text_width q.answer
    let line_height := cfg.font_size_body * (12 / 10)
    let total_text_height := ((lines.take 2).length : ℚ) * line_height
    let text_start_y := badge_y + (cfg.badge_h + total_text_height) / 2 - line_height / 2
    draw_subject_badge sw cfg badge_x badge_y q.subject ++
      (lines.take 2).enum.map (fun jl =>
        .text text_x (text_start_y - (jl.1 : ℚ) * line_height) jl.2)

/-- Translation of the drawing coordinate system (`c.translate(tx, ty)`)
as the induced map on user-space points. -/
def translateOp (tx ty : ℚ) (p : ℚ × ℚ) : ℚ × ℚ :=
  (p.1 + tx, p.2 + ty)

/-- `c.rotate(180)` as the induced map on user-space points. -/
def rotate180Op (p : ℚ × ℚ) : ℚ × ℚ :=
  (-p.1, -p.2)

/-- The composite transform set up by `draw_card_answers` when
`rotate_180` is true (`card_generator_v2.py` lines 259-268):
`translate(center); rotate(180); translate(-center)`.  Transform
concatenation maps a drawing point `p` through the innermost
(last-issued) transform first. -/
def rotate180AboutCardCenter (x y card_w card_h : ℚ) (p : ℚ × ℚ) : ℚ × ℚ :=
  let center_x := x + card_w / 2
  let center_y := y + card_h / 2
  translateOp center_x center_y
    (rotate180Op (translateOp (-center_x) (-center_y) p))

/-- The three print modes accepted by the web layer
(`src/app.py` lines 110-113: `duplex_long`, `duplex_short`,
`single_sided`). -/
inductive PrintMode where
  | singleSided
  | duplexLongEdge
  | duplexShortEdge
deriving DecidableEq, Repr

/-- The back-page row mirroring of `card_generator_v2.render_pdf`
(line 354): `mirrored_row = (cfg.rows - 1) - row`. -/
def mirroredRowV2 (rows row : ℕ) : ℕ :=
  (rows - 1) - row

/-- The back-page column mirroring of the legacy
`card_generator.render_pdf` (line 296): `mirrored_col = (cfg.cols - 1) - col`. -/
def mirroredColLegacy (cols col : ℕ) : ℕ :=
  (cols - 1) - col

/-- Modelled from the spec: the per-mode back-page transform
(spec section 4.4).  The print-mode dispatch itself is missing from
`src/` — `src/app.py` line 117 calls `render_pdf(..., print_mode=...)`
but the `render_pdf` in `src/card_generator_v2.py` accepts no such
parameter.  The `DuplexLongEdge` branch is the back-page placement
actually coded in `card_generator_v2.render_pdf` lines 352-356
(`mirrored_row`, `rotate_180=True`); the `DuplexShortEdge` branch is the
back-page placement actually coded in `card_generator.render_pdf`
lines 293-309 (`mirrored_col`, no rotation); `SingleSided` produces no
back placement at all. -/
def backTransform (mode : PrintMode) (cols rows : ℕ) (p : ℕ × ℕ) :
    Option ((ℕ × ℕ) × Bool) :=
  match mode with
  | .singleSided => none
  | .duplexLongEdge => some ((p.1, mirroredRowV2 rows p.2), true)
  | .duplexShortEdge => some ((mirroredColLegacy cols p.1, p.2), false)

/-- `iter_positions` from `render_pdf` (`card_generator_v2.py`
lines 330-331): `[(col, row) for row in range(rows) for col in range(cols)]`,
row-major. -/
def iter_positions (cfg : LayoutConfig) : List (ℕ × ℕ) :=
  (List.range cfg.rows).flatMap (fun row =>
    (List.range cfg.cols).map (fun col => (col, row)))

/-- A card placed on a page at a logical grid slot, possibly drawn
rotated 180 degrees about its own center. -/
structure PlacedCard where
  col : ℕ
  row : ℕ
  rotated : Bool
  card : Card
deriving DecidableEq, Repr

/-- One emitted page: a front (questions) or back (answers) page with its
card placements. -/
inductive RenderedPage where
  | front (cards : List PlacedCard)
  | back (cards : List PlacedCard)
deriving DecidableEq, Repr

/-- Modelled from the spec: the print-mode-aware `render_pdf` (spec
sections 4.5 and 6) that `src/app.py` line 117 calls with
`print_mode=...` but which is absent from `src/card_generator_v2.py`
(whose `render_pdf`, lines 322-359, takes no mode and always emits the
long-edge back page).  Batching into groups of `cols*rows`, the row-major
slot assignment, and the front page follow `card_generator_v2.render_pdf`
lines 330-345; the back page is emitted unless the mode is `SingleSided`
and its placements use the per-mode transform. -/
def renderPdf (mode : PrintMode) (cards : List Card) (cfg : LayoutConfig) :
    List RenderedPage :=
  let positions := iter_positions cfg
  (chunkList (cfg.cols * cfg.rows) cards).flatMap (fun batch =>
    let front := RenderedPage.front (batch.enum.map (fun ic =>
      let p := positions.getD ic.1 (0, 0)
      ⟨p.1, p.2, false, ic.2⟩))
    match mode with
    | .singleSided => [front]
    | _ =>
      let back := RenderedPage.back (batch.enum.map (fun ic =>
        let p := positions.getD ic.1 (0, 0)
        let t := (backTransform mode cfg.cols cfg.rows p).getD (p, false)
        ⟨t.1.1, t.1.2, t.2, ic.2⟩))
      [front, back])

/-- One parsed record of the legacy loader (`card_generator.py`
lines 14-19). -/
structure CardRow where
  level : Str
  subject : Str
  question : Str
  answer : Str
deriving DecidableEq, Repr

/-- The `ValueError`s raised by the legacy `load_cards`
(`card_generator.py` lines 79, 90, 116): empty CSV, a required column
missing from the recognized header (payload: the alias names tried), and
a headerless data row with fewer than 4 columns (payload: the 1-based row
number and its column count). -/
inductive LegacyError where
  | emptyCsv
  | missingColumn (names : List Str)
  | shortRow (rowNum : ℕ) (cols : ℕ)
deriving DecidableEq, Repr

/-- Header-cell normalization `c.lower().strip()`
(`card_generator.py` line 82). -/
def lowerStrip (s : Str) : Str :=
  pyStrip (s.map Char.toLower)

/-- `find_col` from `card_generator.py` lines 86-90: first alias present
in the header wins, at its first index; otherwise the load fails. -/
def find_col (header : List Str) : List Str → Except LegacyError ℕ :=
  fun names =>
    match names with
    | [] => .error (.missingColumn names)
    | n :: ns =>
      if header.contains n then .ok (header.indexOf n)
      else find_col header ns

/-- Column-name aliases for `level` (`card_generator.py` line 92). -/
def levelAliases : List Str :=
  [['l','e','v','e','l'], ['s','t','a','g','e'], ['t','i','e','r']]

/-- Column-name aliases for `subject` (`card_generator.py` line 93). -/
def subjectAliases : List Str :=
  [['s','u','b','j','e','c','t'], ['c','a','t','e','g','o','r','y'], ['c','a','t']]

/-- Column-name aliases for `question` (`card_generator.py` line 94). -/
def questionAliases : List Str :=
  [['q','u','e','s','t','i','o','n'], ['q']]

/-- Column-name aliases for `answer` (`card_generator.py` line 95). -/
def answerAliases : List Str :=
  [['a','n','s','w','e','r'], ['a']]

/-- Row padding of the legacy header path (`card_generator.py`
lines 99-101): `while len(r) <= m: r.append("")`. -/
def padTo (r : List Str) (m : ℕ) : List Str :=
  r ++ List.replicate (m + 1 - r.length) []

/-- One record of the legacy header path (`card_generator.py`
lines 98-109): pad the row up to the highest mapped column index, then
read and clean the four mapped cells. -/
def headerRecord (iL iS iQ iA : ℕ) (r : List Str) : CardRow :=
  let m := max (max iL iS) (max iQ iA)
  let r := padTo r m
  ⟨_clean (r.getD iL []), _clean (r.getD iS []),
   _clean (r.getD iQ []), _clean (r.getD iA [])⟩

/-- The headerless path of the legacy loader (`card_generator.py`
lines 112-118): 1-based enumeration, rows with fewer than 4 columns are
rejected with the row number. -/
def noHeaderLoop : List (List Str) → ℕ → Except LegacyError (List CardRow)
  | [], _ => .ok []
  | r :: rs, idx =>
    if r.length < 4 then .error (.shortRow idx r.length)
    else
      match noHeaderLoop rs (idx + 1) with
      | .error e => .error e
      | .ok rest =>
        .ok (⟨_clean (r.getD 0 []), _clean (r.getD 1 []),
              _clean (r.getD 2 []), _clean (r.getD 3 [])⟩ :: rest)

/-- `load_cards` from `card_generator.py` lines 58-118, after the CSV
file has been tokenized into raw rows and the header sniffed
(`csv.Sniffer` and file I/O are external collaborators; `hasHeader` is
the sniffer's verdict).  Completely blank rows are dropped first
(line 76). -/
def load_cards (hasHeader : Bool) (rows0 : List (List Str)) :
    Except LegacyError (List CardRow) :=
  let rows := rows0.filter (fun r => r.any (fun c => !(_clean c).isEmpty))
  if rows.isEmpty then .error .emptyCsv
  else if hasHeader then
    let header := (rows.headD []).map lowerStrip
    let data := rows.tail
    match find_col header levelAliases with
    | .error e => .error e
    | .ok iL =>
      match find_col header subjectAliases with
      | .error e => .error e
      | .ok iS =>
        match find_col header questionAliases with
        | .error e => .error e
        | .ok iQ =>
          match find_col header answerAliases with
          | .error e => .error e
          | .ok iA => .ok (data.map (headerRecord iL iS iQ iA))
  else noHeaderLoop rows 1

/-- `e` is an incomplete-card error. -/
def isIncompleteErr : LoadError → Bool
  | .incompleteCard _ _ _ => true
  | _ => false

/-! Concrete inputs used by witnesses and counterexamples. -/

/-- The default `LayoutConfig` of `card_generator_v2.py` (A4, 2x4 grid). -/
def exCfg : LayoutConfig :=
  ⟨a4, 2, 4, 10 * mmUnit, 4 * mmUnit, 4 * mmUnit, 3 * mmUnit, 1, 5 * mmUnit,
   8 * mmUnit, 10 * mmUnit, 6 * mmUnit, 2 * mmUnit,
   ['H','e','l','v','e','t','i','c','a'],
   ['H','e','l','v','e','t','i','c','a','-','B','o','l','d'], 9, 10, 7⟩

/-- A degenerate config with zero padding, badge width and badge margin,
so the text column width equals the card width. -/
def exCfgTight : LayoutConfig :=
  ⟨a4, 2, 4, 0, 0, 0, 0, 1, 0, 0, 0, 0, 0, [], [], 9, 10, 7⟩

/-- Width model measuring a string by its character count. -/
def lenWidth : Str → ℚ :=
  fun t => (t.length : ℚ)

/-- Width model measuring a string by its character count, for any font
and size. -/
def lenWidthF : Str → Str → ℚ → ℚ :=
  fun t _ _ => (t.length : ℚ)

/-- A raw field starting with a byte-order mark followed by a space. -/
def bomSpaceField : Str := [bomChar, ' ', 'x']

/-- Three one-character words. -/
def exWrapInput : Str := ['a', ' ', 'b', ' ', 'c']

/-- A question whose question and answer texts each wrap to 3 lines at
width 1 under `lenWidthF`. -/
def exQuestion : Question :=
  ⟨['S'], ['a', ' ', 'b', ' ', 'c'], ['x', ' ', 'y', ' ', 'z']⟩

/-- A complete valid CSV input: one level, six distinct subjects. -/
def exRows : List CsvRow :=
  [⟨['A'], ['1'], ['q'], ['w']⟩, ⟨['A'], ['2'], ['q'], ['w']⟩,
   ⟨['A'], ['3'], ['q'], ['w']⟩, ⟨['A'], ['4'], ['q'], ['w']⟩,
   ⟨['A'], ['5'], ['q'], ['w']⟩, ⟨['A'], ['6'], ['q'], ['w']⟩]

/-- The card `load_cards_from_csv` builds from `exRows`. -/
def exCard : Card :=
  ⟨['A'],
   [⟨['1'], ['q'], ['w']⟩, ⟨['2'], ['q'], ['w']⟩, ⟨['3'], ['q'], ['w']⟩,
    ⟨['4'], ['q'], ['w']⟩, ⟨['5'], ['q'], ['w']⟩, ⟨['6'], ['q'], ['w']⟩]⟩

/-- A 7-row input for one level: six valid rows plus one extra, so the
level count is not a multiple of 6. -/
def exRowsSeven : List CsvRow :=
  exRows ++ [⟨['A'], ['7'], ['q'], ['w']⟩]

/-- A single row whose subject field is empty. -/
def exRowsEmptySubject : List CsvRow :=
  [⟨['A'], [], ['q'], ['w']⟩]

/-- The level groups `buildGroups` builds from `exRows`. -/
def exGroups : List (Str × List Question) :=
  [(['A'],
    [⟨['1'], ['q'], ['w']⟩, ⟨['2'], ['q'], ['w']⟩, ⟨['3'], ['q'], ['w']⟩,
     ⟨['4'], ['q'], ['w']⟩, ⟨['5'], ['q'], ['w']⟩, ⟨['6'], ['q'], ['w']⟩])]

/-- The level groups `buildGroups` builds from `exRowsSeven`. -/
def exGroupsSeven : List (Str × List Question) :=
  [(['A'],
    [⟨['1'], ['q'], ['w']⟩, ⟨['2'], ['q'], ['w']⟩, ⟨['3'], ['q'], ['w']⟩,
     ⟨['4'], ['q'], ['w']⟩, ⟨['5'], ['q'], ['w']⟩, ⟨['6'], ['q'], ['w']⟩,
     ⟨['7'], ['q'], ['w']⟩])]

/-- A headered raw CSV for the legacy loader: proper header row plus one
data row with only 2 of the 4 columns. -/
def exHeaderRows : List (List Str) :=
  [[['l','e','v','e','l'], ['s','u','b','j','e','c','t'],
    ['q','u','e','s','t','i','o','n'], ['a','n','s','w','e','r']],
   [['A'], ['B']]]

/-- A headerless raw CSV for the legacy loader with a single 2-column
row. -/
def exNoHeaderShort : List (List Str) :=
  [[['A'], ['B']]]

/-- A single card with no questions, used for page counting. -/
def exCardEmpty : Card := ⟨['A'], []⟩

/-! ## Theorems -/

/-- C6: for every layout config with `cols ≥ 1` and `rows ≥ 1`, the card
width returned by `grid_geometry` satisfies
`card_w * cols + gutter_x * (cols - 1) + 2 * margin = page_w`, and
symmetrically for the height.  Over exact rational arithmetic the
identity is exact (the floating-point version of the source satisfies it
up to rounding, which is the spec's "within floating-point tolerance"). -/
theorem grid_geometry_partitions_page (cfg : LayoutConfig)
    (hc : 1 ≤ cfg.cols) (hr : 1 ≤ cfg.rows) :
    (grid_geometry cfg).2.2.1 * (cfg.cols : ℚ)
        + cfg.gutter_x * ((cfg.cols : ℚ) - 1) + 2 * cfg.margin
      = cfg.page_size.1
    ∧ (grid_geometry cfg).2.2.2 * (cfg.rows : ℚ)
        + cfg.gutter_y * ((cfg.rows : ℚ) - 1) + 2 * cfg.margin
      = cfg.page_size.2 := by
  have hc0 : ((cfg.cols : ℚ)) ≠ 0 := by
    have : (0 : ℚ) < (cfg.cols : ℚ) := by exact_mod_cast hc
    exact ne_of_gt this
  have hr0 : ((cfg.rows : ℚ)) ≠ 0 := by
    have : (0 : ℚ) < (cfg.rows : ℚ) := by exact_mod_cast hr
    exact ne_of_gt this
  constructor
  · show (cfg.page_size.1 - 2 * cfg.margin - cfg.gutter_x * ((cfg.cols : ℚ) - 1))
        / (cfg.cols : ℚ) * (cfg.cols : ℚ)
        + cfg.gutter_x * ((cfg.cols : ℚ) - 1) + 2 * cfg.margin = cfg.page_size.1
    field_simp
  · show (cfg.page_size.2 - 2 * cfg.margin - cfg.gutter_y * ((cfg.rows : ℚ) - 1))
        / (cfg.rows : ℚ) * (cfg.rows : ℚ)
        + cfg.gutter_y * ((cfg.rows : ℚ) - 1) + 2 * cfg.margin = cfg.page_size.2
    field_simp

/-- Witness for C6 at the default layout config. -/
theorem grid_geometry_partitions_page_witness :
    1 ≤ exCfg.cols ∧ 1 ≤ exCfg.rows ∧
    ((grid_geometry exCfg).2.2.1 * (exCfg.cols : ℚ)
        + exCfg.gutter_x * ((exCfg.cols : ℚ) - 1) + 2 * exCfg.margin
      = exCfg.page_size.1
    ∧ (grid_geometry exCfg).2.2.2 * (exCfg.rows : ℚ)
        + exCfg.gutter_y * ((exCfg.rows : ℚ) - 1) + 2 * exCfg.margin
      = exCfg.page_size.2) :=
  ⟨by decide, by decide,
   grid_geometry_partitions_page exCfg (by decide) (by decide)⟩

/-- C2: for every logical slot `(col, row)` of a `cols x rows` grid, the
back-page transform under `DuplexLongEdge` keeps the column, reverses the
row to `(rows-1)-row`, and rotates the card content; under
`DuplexShortEdge` it reverses the column to `(cols-1)-col`, keeps the row
and applies no rotation.  The rotation set up by `draw_card_answers`
(`translate(center); rotate(180); translate(-center)`) is exactly the
180-degree rotation about the card's own center `p ↦ 2c - p`. -/
theorem backTransform_duplex_slots (cols rows col row : ℕ)
    (hc : col < cols) (hr : row < rows) :
    backTransform .duplexLongEdge cols rows (col, row)
        = some ((col, (rows - 1) - row), true)
    ∧ backTransform .duplexShortEdge cols rows (col, row)
        = some (((cols - 1) - col, row), false)
    ∧ ∀ x y cw ch p, rotate180AboutCardCenter x y cw ch p
        = (2 * (x + cw / 2) - p.1, 2 * (y + ch / 2) - p.2) := by
  refine ⟨rfl, rfl, ?_⟩
  intro x y cw ch p
  unfold rotate180AboutCardCenter translateOp rotate180Op
  dsimp only
  refine Prod.ext ?_ ?_
  · dsimp only
    ring
  · dsimp only
    ring

/-- Witness for C2 at slot (1, 2) of the default 2x4 grid, with the
rotation map evaluated at a sample card and point. -/
theorem backTransform_duplex_slots_witness :
    backTransform .duplexLongEdge 2 4 (1, 2) = some ((1, 1), true)
    ∧ backTransform .duplexShortEdge 2 4 (1, 2) = some ((0, 2), false)
    ∧ rotate180AboutCardCenter 0 0 10 20 (3, 4) = (7, 16) :=
  ⟨(backTransform_duplex_slots 2 4 1 2 (by decide) (by decide)).1,
   (backTransform_duplex_slots 2 4 1 2 (by decide) (by decide)).2.1,
   by
    rw [(backTransform_duplex_slots 2 4 1 2 (by decide) (by decide)).2.2 0 0 10 20 (3, 4)]
    norm_num⟩

/-- Every suffix produced by `dropWhile` starts (if nonempty) with an
element falsifying the predicate. -/
lemma head?_dropWhile_false (p : α → Bool) (l : List α) (c : α)
    (h : (l.dropWhile p).head? = some c) : p c = false := by
  induction l with
  | nil => simp at h
  | cons a as ih =>
    rw [List.dropWhile_cons] at h
    by_cases hp : p a
    · rw [if_pos hp] at h
      exact ih h
    · rw [if_neg hp] at h
      simp at h
      rw [← h]
      exact Bool.not_eq_true _ |>.mp hp

/-- `dropWhile` is a suffix: the list decomposes as a prefix followed by
the `dropWhile` remainder. -/
lemma exists_append_dropWhile (p : α → Bool) (l : List α) :
    ∃ t, l = t ++ l.dropWhile p := by
  induction l with
  | nil => exact ⟨[], rfl⟩
  | cons a as ih =>
    by_cases hp : p a
    · obtain ⟨t, ht⟩ := ih
      refine ⟨a :: t, ?_⟩
      rw [List.dropWhile_cons, if_pos hp]
      simpa using ht
    · refine ⟨[], ?_⟩
      rw [List.dropWhile_cons, if_neg hp]
      simp

/-- `pyStrip` yields a prefix of `dropWhile isPySpace`: explicitly, the
whitespace dropped from the right can be appended back. -/
lemma pyStrip_decomp (s : Str) :
    ∃ t, s.dropWhile isPySpace = pyStrip s ++ t := by
  obtain ⟨u, hu⟩ := exists_append_dropWhile isPySpace (s.dropWhile isPySpace).reverse
  refine ⟨u.reverse, ?_⟩
  unfold pyStrip
  calc s.dropWhile isPySpace
      = (s.dropWhile isPySpace).reverse.reverse := by rw [List.reverse_reverse]
    _ = (u ++ ((s.dropWhile isPySpace).reverse.dropWhile isPySpace)).reverse := by rw [← hu]
    _ = ((s.dropWhile isPySpace).reverse.dropWhile isPySpace).reverse ++ u.reverse := by
        rw [List.reverse_append]

/-- Members of `pyStrip s` are members of `s`. -/
lemma pyStrip_subset (s : Str) (c : Char) (h : c ∈ pyStrip s) : c ∈ s := by
  obtain ⟨t, ht⟩ := pyStrip_decomp s
  obtain ⟨u, hu⟩ := exists_append_dropWhile isPySpace s
  have h1 : c ∈ s.dropWhile isPySpace := by
    rw [ht]
    exact List.mem_append_left _ h
  rw [hu]
  exact List.mem_append_right _ h1

/-- The head of `pyStrip s` is not whitespace. -/
lemma pyStrip_head (s : Str) (c : Char) (h : (pyStrip s).head? = some c) :
    isPySpace c = false := by
  obtain ⟨t, ht⟩ := pyStrip_decomp s
  cases hs : pyStrip s with
  | nil => rw [hs] at h; simp at h
  | cons a rest =>
    rw [hs] at h
    simp at h
    subst h
    have : (s.dropWhile isPySpace).head? = some a := by
      rw [ht, hs]
      rfl
    exact head?_dropWhile_false isPySpace s a this

/-- The last element of `pyStrip s` is not whitespace. -/
lemma pyStrip_getLast (s : Str) (c : Char)
    (h : (pyStrip s).getLast? = some c) : isPySpace c = false := by
  have hrev : (pyStrip s).reverse.head? = some c := by
    rw [List.head?_reverse]
    exact h
  have : ((s.dropWhile isPySpace).reverse.dropWhile isPySpace).head? = some c := by
    unfold pyStrip at hrev
    rw [List.reverse_reverse] at hrev
    exact hrev
  exact head?_dropWhile_false isPySpace _ c this

/-- C8 (amended): the cleaned field never contains a byte-order mark, and
when the raw field contains no byte-order mark the cleaned field also has
no leading or trailing whitespace.  (The unconditional claim is refuted
by `_clean_bom_counterexample`: stripping happens before BOM removal, so
a BOM shielding edge whitespace leaves that whitespace behind.) -/
theorem _clean_edges (s : Str) :
    bomChar ∉ _clean s
    ∧ (bomChar ∉ s →
        (∀ c, (_clean s).head? = some c → isPySpace c = false)
        ∧ (∀ c, (_clean s).getLast? = some c → isPySpace c = false)) := by
  constructor
  · intro hmem
    unfold _clean removeBom at hmem
    have := List.mem_filter.mp hmem
    simp at this
  · intro hbom
    have hid : _clean s = pyStrip s := by
      unfold _clean removeBom
      rw [List.filter_eq_self]
      intro a ha
      have : a ∈ s := pyStrip_subset s a ha
      simp only [ne_eq, decide_eq_true_eq]
      intro h
      exact hbom (h ▸ this)
    rw [hid]
    exact ⟨pyStrip_head s, pyStrip_getLast s⟩

/-- Witness for C8 (amended) on a BOM-free raw field with edge
whitespace. -/
theorem _clean_edges_witness :
    bomChar ∉ _clean [' ', 'a', 'b', ' ']
    ∧ bomChar ∉ ([' ', 'a', 'b', ' '] : Str)
    ∧ (∀ c, (_clean [' ', 'a', 'b', ' ']).head? = some c → isPySpace c = false) :=
  ⟨(_clean_edges [' ', 'a', 'b', ' ']).1, by decide,
   ((_clean_edges [' ', 'a', 'b', ' ']).2 (by decide)).1⟩

/-- C8 counterexample: for the raw field BOM-space-x, the cleaned value
is space-x, which starts with whitespace — `strip` runs before the BOM is
removed, so the BOM shields the interior space from stripping.  This
refutes the claim that every cleaned field has no leading or trailing
whitespace. -/
theorem _clean_bom_counterexample :
    _clean bomSpaceField = [' ', 'x'] ∧ isPySpace ' ' = true := by
  decide

/-- Invariant of the hard-split fold: every emitted chunk, and the
current chunk when nonempty, either fits in `maxW` or is a single
character. -/
lemma foldl_hardSplitStep_inv (sw : Str → ℚ) (maxW : ℚ) :
    ∀ (cs : Str) (acc : List Str × Str),
      (∀ l ∈ acc.1, sw l ≤ maxW ∨ l.length = 1) →
      (acc.2 = [] ∨ sw acc.2 ≤ maxW ∨ acc.2.length = 1) →
      (∀ l ∈ (cs.foldl (V2.hardSplitStep sw maxW) acc).1,
          sw l ≤ maxW ∨ l.length = 1)
      ∧ ((cs.foldl (V2.hardSplitStep sw maxW) acc).2 = []
          ∨ sw (cs.foldl (V2.hardSplitStep sw maxW) acc).2 ≤ maxW
          ∨ (cs.foldl (V2.hardSplitStep sw maxW) acc).2.length = 1) := by
  intro cs
  induction cs with
  | nil => intro acc h1 h2; exact ⟨h1, h2⟩
  | cons c cs ih =>
    intro acc h1 h2
    rw [List.foldl_cons]
    apply ih
    · intro l hl
      unfold V2.hardSplitStep at hl
      dsimp only at hl
      by_cases hc : sw (acc.2 ++ [c]) ≤ maxW
      · rw [if_pos hc] at hl
        exact h1 l hl
      · rw [if_neg hc] at hl
        by_cases he : acc.2.isEmpty
        · rw [if_pos he] at hl
          exact h1 l hl
        · rw [if_neg he] at hl
          rcases List.mem_append.mp hl with h | h
          · exact h1 l h
          · have hl2 : l = acc.2 := by simpa using h
            subst hl2
            rcases h2 with h2 | h2
            · exact absurd (List.isEmpty_iff.mpr h2) he
            · exact h2
    · unfold V2.hardSplitStep
      dsimp only
      by_cases hc : sw (acc.2 ++ [c]) ≤ maxW
      · rw [if_pos hc]
        exact Or.inr (Or.inl hc)
      · rw [if_neg hc]
        by_cases he : acc.2.isEmpty
        · rw [if_pos he]
          exact Or.inr (Or.inr rfl)
        · rw [if_neg he]
          exact Or.inr (Or.inr rfl)

/-- Every line produced by the hard split fits in `maxW` or is a single
character. -/
lemma hardSplit_mem_bound (sw : Str → ℚ) (maxW : ℚ) (line l : Str)
    (h : l ∈ V2.hardSplit sw maxW line) : sw l ≤ maxW ∨ l.length = 1 := by
  unfold V2.hardSplit at h
  dsimp only at h
  have inv := foldl_hardSplitStep_inv sw maxW line ([], [])
    (by intro l hl; simp at hl) (Or.inl rfl)
  by_cases he : (line.foldl (V2.hardSplitStep sw maxW) ([], [])).2.isEmpty
  · rw [if_pos he] at h
    exact inv.1 l h
  · rw [if_neg he] at h
    rcases List.mem_append.mp h with h | h
    · exact inv.1 l h
    · have hl : l = (line.foldl (V2.hardSplitStep sw maxW) ([], [])).2 := by
        simpa using h
      subst hl
      rcases inv.2 with h2 | h2
      · exact absurd (List.isEmpty_iff.mpr h2) he
      · exact h2

/-- C5 (amended): every line returned by `wrap_text` has measured width
at most `max_width`, or is a single character, or is the single empty
line returned when the text contains no words.  (The unconditional
claim, which omits the empty-line case, is refuted by
`wrap_text_bound_counterexample`.)  `sw` is an arbitrary width function,
covering every font and size of the real measurement service. -/
theorem wrap_text_line_bound (sw : Str → ℚ) (maxW : ℚ) (text line : Str)
    (h : line ∈ V2.wrap_text sw maxW text) :
    sw line ≤ maxW ∨ line.length = 1 ∨ (line = [] ∧ pySplit text = []) := by
  unfold V2.wrap_text at h
  split at h
  · rename_i heq
    right; right
    have : line = [] := by simpa using h
    exact ⟨this, heq⟩
  · rename_i w ws heq
    obtain ⟨l0, _, hline⟩ := List.mem_flatMap.mp h
    by_cases hle : sw l0 ≤ maxW
    · rw [if_pos hle] at hline
      have : line = l0 := by simpa using hline
      subst this
      exact Or.inl hle
    · rw [if_neg hle] at hline
      rcases hardSplit_mem_bound sw maxW l0 line hline with h | h
      · exact Or.inl h
      · exact Or.inr (Or.inl h)

/-- Witness for C5 (amended): the line `"a"` of the wrap of `"a b c"` at
width 1 under the character-count width model. -/
theorem wrap_text_line_bound_witness :
    (['a'] ∈ V2.wrap_text lenWidth 1 exWrapInput)
    ∧ (lenWidth ['a'] ≤ 1 ∨ (['a'] : Str).length = 1
        ∨ (['a'] = ([] : Str) ∧ pySplit exWrapInput = [])) :=
  ⟨by decide, wrap_text_line_bound lenWidth 1 exWrapInput ['a'] (by decide)⟩

/-- C5 counterexample: for empty text, `wrap_text` returns the single
empty line (the real `pdfmetrics` width of `""` is 0), and with
`max_width = -1` that line exceeds the bound yet is not a single
character — refuting the claim as stated, which quantifies over every
`max_width` and excepts only single-character lines. -/
theorem wrap_text_bound_counterexample :
    V2.wrap_text (fun _ => (0 : ℚ)) (-1) [] = [[]]
    ∧ ¬ ((0 : ℚ) ≤ -1) ∧ ([] : Str).length ≠ 1 := by
  refine ⟨by decide, by norm_num, by decide⟩

/-- The legacy and v2 greedy word loops agree. -/
lemma greedyLines_legacy_eq (sw : Str → ℚ) (maxW : ℚ) :
    ∀ (ws : List Str) (cur : Str),
      Legacy.greedyLines sw maxW cur ws = V2.greedyLines sw maxW cur ws := by
  intro ws
  induction ws with
  | nil => intro cur; rfl
  | cons w ws ih =>
    intro cur
    show (if sw (cur ++ ' ' :: w) ≤ maxW
        then Legacy.greedyLines sw maxW (cur ++ ' ' :: w) ws
        else cur :: Legacy.greedyLines sw maxW w ws)
      = (if sw (cur ++ ' ' :: w) ≤ maxW
        then V2.greedyLines sw maxW (cur ++ ' ' :: w) ws
        else cur :: V2.greedyLines sw maxW w ws)
    by_cases h : sw (cur ++ ' ' :: w) ≤ maxW
    · rw [if_pos h, if_pos h, ih]
    · rw [if_neg h, if_neg h, ih]

/-- The legacy and v2 hard-split steps are the same function. -/
lemma hardSplitStep_legacy_eq : @Legacy.hardSplitStep = @V2.hardSplitStep :=
  rfl

/-- The legacy and v2 hard splits agree. -/
lemma hardSplit_legacy_eq (sw : Str → ℚ) (maxW : ℚ) (l : Str) :
    Legacy.hardSplit sw maxW l = V2.hardSplit sw maxW l := by
  unfold Legacy.hardSplit V2.hardSplit
  rw [hardSplitStep_legacy_eq]

/-- C9: the legacy (`card_generator.py` lines 125-164) and v2
(`card_generator_v2.py` lines 79-113) `wrap_text` functions compute the
same function: for every width model (i.e. every font and size), maximum
width and text, both return the identical sequence of lines. -/
theorem wrap_text_legacy_eq_v2 (sw : Str → ℚ) (maxW : ℚ) (text : Str) :
    Legacy.wrap_text sw maxW text = V2.wrap_text sw maxW text := by
  unfold Legacy.wrap_text V2.wrap_text
  cases hp : pySplit text with
  | nil => rfl
  | cons w ws =>
    dsimp only
    rw [greedyLines_legacy_eq]
    congr 1

/-- `enum` then projecting the second components is the identity. -/
lemma enum_map_snd (l : List Str) : l.enum.map (fun p => p.2) = l := by
  simpa using List.enumFrom_map_snd 0 l

/-- `stringsDrawn` distributes over concatenation. -/
lemma stringsDrawn_append (l1 l2 : List DrawOp) :
    stringsDrawn (l1 ++ l2) = stringsDrawn l1 ++ stringsDrawn l2 :=
  List.filterMap_append l1 l2 _

/-- The only string a badge draws is its subject label. -/
lemma stringsDrawn_badge (sw : Str → Str → ℚ → ℚ) (cfg : LayoutConfig)
    (x y : ℚ) (subject : Str) :
    stringsDrawn (draw_subject_badge sw cfg x y subject) = [subject] :=
  rfl

/-- A batch of per-line text ops draws exactly its lines. -/
lemma stringsDrawn_lineOps (a : ℚ) (g : ℕ × Str → ℚ) (l : List Str) :
    stringsDrawn (l.enum.map (fun jl => DrawOp.text a (g jl) jl.2)) = l := by
  unfold stringsDrawn
  rw [List.filterMap_map]
  have h : ((fun (op : DrawOp) =>
        match op with
        | .text _ _ s => some s
        | _ => none) ∘ (fun jl : ℕ × Str => DrawOp.text a (g jl) jl.2))
      = some ∘ (fun jl : ℕ × Str => jl.2) := rfl
  rw [h, List.filterMap_eq_map]
  exact enum_map_snd l

/-- C7: in the six-question layout, when the wrapped text of a question
or answer has more than 2 lines, the drawn strings are exactly the badge
label followed by the first 2 wrapped lines — the remaining lines are
silently discarded, and the drawing functions are total (they return a
plain list of draw calls and can raise no error). -/
theorem draw_rows_truncate (sw : Str → Str → ℚ → ℚ) (cfg : LayoutConfig)
    (x y cw ch : ℚ) (i : ℕ) (q : Question) (lq la : List Str)
    (hlq : lq = V2.wrap_text (fun t => sw t cfg.font_name cfg.font_size_body)
      (cw - 2 * cfg.padding - cfg.badge_w - cfg.badge_margin) q.text)
    (hla : la = V2.wrap_text (fun t => sw t cfg.font_name cfg.font_size_body)
      (cw - 2 * cfg.padding - cfg.badge_w - cfg.badge_margin) q.answer)
    (h2q : 2 < lq.length) (h2a : 2 < la.length) :
    stringsDrawn (questionRowOps sw cfg x y cw ch i q) = q.subject :: lq.take 2
    ∧ stringsDrawn (answerRowOps sw cfg x y cw ch i q) = q.subject :: la.take 2
    ∧ (lq.take 2).length = 2 ∧ (la.take 2).length = 2 := by
  have ht : q.text ≠ [] := by
    intro h
    rw [h] at hlq
    have : lq = [[]] := hlq
    rw [this] at h2q
    simp at h2q
  have ha : q.answer ≠ [] := by
    intro h
    rw [h] at hla
    have : la = [[]] := hla
    rw [this] at h2a
    simp at h2a
  refine ⟨?_, ?_, ?_, ?_⟩
  · unfold questionRowOps
    rw [if_neg ht]
    dsimp only
    rw [← hlq, stringsDrawn_append, stringsDrawn_badge, stringsDrawn_lineOps]
    rfl
  · unfold answerRowOps
    rw [if_neg ha]
    dsimp only
    rw [← hla, stringsDrawn_append, stringsDrawn_badge, stringsDrawn_lineOps]
    rfl
  · rw [List.length_take]
    omega
  · rw [List.length_take]
    omega

/-- `chunkGo` on the empty list is empty, for any fuel. -/
lemma chunkGo_nil (k f : ℕ) : chunkGo k f ([] : List α) = [] := by
  cases f <;> rfl

/-- Unfolding `chunkGo` at positive fuel on a nonempty list. -/
lemma chunkGo_succ_cons (k f : ℕ) (a : α) (as : List α) :
    chunkGo k (f + 1) (a :: as)
      = (a :: as).take k :: chunkGo k f ((a :: as).drop k) :=
  rfl

/-- With enough fuel, `chunkGo` computes `chunkList`. -/
lemma chunkGo_eq_chunkList {k : ℕ} (hk : 0 < k) :
    ∀ (f : ℕ) (l : List α), l.length ≤ f → chunkGo k f l = chunkList k l := by
  intro f
  induction f using Nat.strong_induction_on with
  | _ f ih =>
    intro l hl
    cases l with
    | nil => rw [chunkGo_nil]; rfl
    | cons a as =>
      cases f with
      | zero => simp at hl
      | succ f' =>
        rw [chunkGo_succ_cons]
        have hd : ((a :: as).drop k).length ≤ as.length := by
          simp only [List.length_drop, List.length_cons]
          omega
        have hf : as.length ≤ f' := by
          simp only [List.length_cons] at hl
          omega
        rw [ih f' (Nat.lt_succ_self f') _ (le_trans hd hf)]
        show _ = chunkGo k (a :: as).length (a :: as)
        rw [show (a :: as).length = as.length + 1 from rfl, chunkGo_succ_cons]
        rw [ih as.length (by omega) _ hd]

/-- Unfolding `chunkList` on a nonempty list (chunk size positive). -/
lemma chunkList_cons {k : ℕ} (hk : 0 < k) (a : α) (as : List α) :
    chunkList k (a :: as)
      = (a :: as).take k :: chunkList k ((a :: as).drop k) := by
  show chunkGo k (as.length + 1) (a :: as) = _
  rw [chunkGo_succ_cons]
  congr 1
  apply chunkGo_eq_chunkList hk
  simp only [List.length_drop, List.length_cons]
  omega

/-- Number of chunks: the ceiling of `length / k`. -/
lemma chunkList_length {k : ℕ} (hk : 0 < k) (l : List α) :
    (chunkList k l).length = (l.length + k - 1) / k := by
  suffices h : ∀ (n : ℕ) (l : List α), l.length = n →
      (chunkList k l).length = (l.length + k - 1) / k from h l.length l rfl
  intro n
  induction n using Nat.strong_induction_on with
  | _ n ih =>
    intro l hl
    subst hl
    cases l with
    | nil =>
      show (0 : ℕ) = (0 + k - 1) / k
      symm
      apply Nat.div_eq_of_lt
      omega
    | cons a as =>
      rw [chunkList_cons hk, List.length_cons]
      have hd : ((a :: as).drop k).length = as.length + 1 - k := by
        simp
      have hrec := ih ((a :: as).drop k).length
        (by simp only [List.length_drop, List.length_cons]; omega)
        ((a :: as).drop k) rfl
      rw [hrec, hd, List.length_cons]
      rcases le_or_lt k (as.length + 1) with h | h
      · have e2 : as.length + 1 + k - 1 = (as.length + 1 - 1) + k := by omega
        rw [e2, Nat.add_div_right _ hk]
        have e3 : as.length + 1 - k + k - 1 = as.length + 1 - 1 := by omega
        rw [e3]
      · have e1 : as.length + 1 - k = 0 := by omega
        rw [e1]
        have e2 : (0 + k - 1) / k = 0 := Nat.div_eq_of_lt (by omega)
        rw [e2]
        symm
        apply Nat.div_eq_of_lt_le
        · omega
        · omega

/-- Chunks are made of elements of the original list. -/
lemma chunkList_mem_subset {k : ℕ} (hk : 0 < k) :
    ∀ (l ch : List α), ch ∈ chunkList k l → ∀ a ∈ ch, a ∈ l := by
  suffices h : ∀ (n : ℕ) (l ch : List α), l.length = n →
      ch ∈ chunkList k l → ∀ a ∈ ch, a ∈ l from
    fun l ch => h l.length l ch rfl
  intro n
  induction n using Nat.strong_induction_on with
  | _ n ih =>
    intro l ch hl hch a ha
    subst hl
    cases l with
    | nil => rw [show chunkList k ([] : List α) = [] from rfl] at hch; simp at hch
    | cons x xs =>
      rw [chunkList_cons hk] at hch
      rcases List.mem_cons.mp hch with h | h
      · subst h
        exact List.take_subset k _ ha
      · have := ih ((x :: xs).drop k).length
          (by simp only [List.length_drop, List.length_cons]; omega)
          ((x :: xs).drop k) ch rfl h a ha
        exact List.drop_subset k _ this

/-- Every chunk has at most `k` elements. -/
lemma chunkList_mem_le {k : ℕ} (hk : 0 < k) :
    ∀ (l ch : List α), ch ∈ chunkList k l → ch.length ≤ k := by
  suffices h : ∀ (n : ℕ) (l ch : List α), l.length = n →
      ch ∈ chunkList k l → ch.length ≤ k from
    fun l ch => h l.length l ch rfl
  intro n
  induction n using Nat.strong_induction_on with
  | _ n ih =>
    intro l ch hl hch
    subst hl
    cases l with
    | nil => rw [show chunkList k ([] : List α) = [] from rfl] at hch; simp at hch
    | cons x xs =>
      rw [chunkList_cons hk] at hch
      rcases List.mem_cons.mp hch with h | h
      · subst h
        simp [List.length_take]
      · exact ih ((x :: xs).drop k).length
          (by simp only [List.length_drop, List.length_cons]; omega)
          ((x :: xs).drop k) ch rfl h

/-- When `k` divides the length, every chunk has exactly `k` elements. -/
lemma chunkList_mem_eq {k : ℕ} (hk : 0 < k) :
    ∀ (l ch : List α), k ∣ l.length → ch ∈ chunkList k l → ch.length = k := by
  suffices h : ∀ (n : ℕ) (l ch : List α), l.length = n → k ∣ l.length →
      ch ∈ chunkList k l → ch.length = k from
    fun l ch => h l.length l ch rfl
  intro n
  induction n using Nat.strong_induction_on with
  | _ n ih =>
    intro l ch hl hdvd hch
    subst hl
    cases l with
    | nil => rw [show chunkList k ([] : List α) = [] from rfl] at hch; simp at hch
    | cons x xs =>
      have hklen : k ≤ (x :: xs).length := by
        rcases hdvd with ⟨c, hc⟩
        rcases Nat.eq_zero_or_pos c with h0 | h0
        · rw [h0, Nat.mul_zero] at hc
          simp at hc
        · calc k = k * 1 := by omega
            _ ≤ k * c := Nat.mul_le_mul_left k h0
            _ = (x :: xs).length := hc.symm
      rw [chunkList_cons hk] at hch
      rcases List.mem_cons.mp hch with h | h
      · subst h
        simp only [List.length_take, List.length_cons]
        simp only [List.length_cons] at hklen
        omega
      · have hdvd2 : k ∣ ((x :: xs).drop k).length := by
          simp only [List.length_drop]
          exact (Nat.dvd_sub' hdvd dvd_rfl)
        exact ih ((x :: xs).drop k).length
          (by simp only [List.length_drop, List.length_cons]; omega)
          ((x :: xs).drop k) ch rfl hdvd2 h

/-- Witness for C7: a question whose question and answer texts wrap to 3
lines at width 1; only the first 2 lines are drawn. -/
theorem draw_rows_truncate_witness :
    (([['a'], ['b'], ['c']] : List Str)
        = V2.wrap_text (fun t => lenWidthF t exCfgTight.font_name exCfgTight.font_size_body)
            (1 - 2 * exCfgTight.padding - exCfgTight.badge_w - exCfgTight.badge_margin)
            exQuestion.text)
    ∧ 2 < ([['a'], ['b'], ['c']] : List Str).length
    ∧ stringsDrawn (questionRowOps lenWidthF exCfgTight 0 0 1 1 0 exQuestion)
        = exQuestion.subject :: ([['a'], ['b'], ['c']] : List Str).take 2 := by
  have e : (1 : ℚ) - 2 * exCfgTight.padding - exCfgTight.badge_w
      - exCfgTight.badge_margin = 1 := by
    norm_num [exCfgTight]
  refine ⟨by rw [e]; decide, by decide, ?_⟩
  exact (draw_rows_truncate lenWidthF exCfgTight 0 0 1 1 0 exQuestion
      [['a'], ['b'], ['c']] [['x'], ['y'], ['z']]
      (by rw [e]; decide) (by rw [e]; decide) (by decide) (by decide)).1

/-- Unfolding `buildGroups` on a row. -/
lemma buildGroups_cons (r : CsvRow) (rs : List CsvRow)
    (acc : List (Str × List Question)) :
    buildGroups (r :: rs) acc
      = if _clean r.subject = [] then .error .emptySubject
        else buildGroups rs (addRow acc (_clean r.level)
          ⟨_clean r.subject, _clean r.question, _clean r.answer⟩) :=
  rfl

/-- `addRow` preserves the all-subjects-nonempty property of the
accumulated groups. -/
lemma addRow_subjects (lvl : Str) (q : Question) (hq : q.subject ≠ []) :
    ∀ groups : List (Str × List Question),
      (∀ g ∈ groups, ∀ p ∈ g.2, p.subject ≠ []) →
      ∀ g ∈ addRow groups lvl q, ∀ p ∈ g.2, p.subject ≠ [] := by
  intro groups
  induction groups with
  | nil =>
    intro hacc g hg p hp
    rw [show addRow [] lvl q = [(lvl, [q])] from rfl] at hg
    have : g = (lvl, [q]) := by simpa using hg
    subst this
    have : p = q := by simpa using hp
    subst this
    exact hq
  | cons g0 gs ih =>
    intro hacc g hg p hp
    rw [show addRow (g0 :: gs) lvl q
        = if g0.1 = lvl then (g0.1, g0.2 ++ [q]) :: gs
          else g0 :: addRow gs lvl q from rfl] at hg
    by_cases h0 : g0.1 = lvl
    · rw [if_pos h0] at hg
      rcases List.mem_cons.mp hg with h | h
      · subst h
        rcases List.mem_append.mp hp with h | h
        · exact hacc g0 (List.mem_cons_self g0 gs) p h
        · have : p = q := by simpa using h
          subst this
          exact hq
      · exact hacc g (List.mem_cons_of_mem g0 h) p hp
    · rw [if_neg h0] at hg
      rcases List.mem_cons.mp hg with h | h
      · subst h
        exact hacc g (List.mem_cons_self g gs) p hp
      · exact ih (fun g' hg' => hacc g' (List.mem_cons_of_mem g0 hg')) g h p hp

/-- Every question in a group produced by a successful `buildGroups` run
has a nonempty subject (the run would have failed otherwise). -/
lemma buildGroups_subjects :
    ∀ (rows : List CsvRow) (acc gs : List (Str × List Question)),
      buildGroups rows acc = .ok gs →
      (∀ g ∈ acc, ∀ p ∈ g.2, p.subject ≠ []) →
      ∀ g ∈ gs, ∀ p ∈ g.2, p.subject ≠ [] := by
  intro rows
  induction rows with
  | nil =>
    intro acc gs h hacc
    have : acc = gs := by
      have := h
      rw [show buildGroups [] acc = .ok acc from rfl] at this
      exact Except.ok.inj this
    subst this
    exact hacc
  | cons r rs ih =>
    intro acc gs h hacc
    rw [buildGroups_cons] at h
    by_cases hs : _clean r.subject = []
    · rw [if_pos hs] at h
      exact absurd h (by simp)
    · rw [if_neg hs] at h
      exact ih _ gs h (addRow_subjects (_clean r.level) _ hs acc hacc)

/-- Cards produced by a successful `cardsOfLevel` run come from chunks
that passed both the completeness and the distinct-subjects checks. -/
lemma cardsOfLevel_ok_mem (lvl : Str) :
    ∀ (chs : List (List Question)) (n : ℕ) (cs : List Card),
      cardsOfLevel lvl chs n = .ok cs →
      ∀ c ∈ cs, ∃ ch ∈ chs, c = ⟨lvl, ch⟩ ∧ 6 ≤ ch.length
        ∧ (ch.map Question.subject).Nodup := by
  intro chs
  induction chs with
  | nil =>
    intro n cs h c hc
    have : ([] : List Card) = cs := Except.ok.inj h
    subst this
    simp at hc
  | cons ch chs ih =>
    intro n cs h c hc
    rw [show cardsOfLevel lvl (ch :: chs) n
        = if ch.length < 6 then .error (.incompleteCard lvl n ch.length)
          else if (ch.map Question.subject).Nodup then
            match cardsOfLevel lvl chs (n + 1) with
            | .error e => .error e
            | .ok rest => .ok (⟨lvl, ch⟩ :: rest)
          else .error (.duplicateSubject lvl n) from rfl] at h
    by_cases h6 : ch.length < 6
    · rw [if_pos h6] at h
      exact absurd h (by simp)
    · rw [if_neg h6] at h
      by_cases hnd : (ch.map Question.subject).Nodup
      · rw [if_pos hnd] at h
        cases hrec : cardsOfLevel lvl chs (n + 1) with
        | error e => rw [hrec] at h; exact absurd h (by simp)
        | ok rest =>
          rw [hrec] at h
          have hcs : (⟨lvl, ch⟩ : Card) :: rest = cs := Except.ok.inj h
          subst hcs
          rcases List.mem_cons.mp hc with hcc | hcc
          · exact ⟨ch, List.mem_cons_self ch chs, hcc, by omega, hnd⟩
          · obtain ⟨ch', hch', hrest⟩ := ih (n + 1) rest hrec c hcc
            exact ⟨ch', List.mem_cons_of_mem ch hch', hrest⟩
      · rw [if_neg hnd] at h
        exact absurd h (by simp)

/-- Cards produced by a successful `cardsFromGroups` run come from the
6-chunks of the level groups, with the per-chunk checks passed. -/
lemma cardsFromGroups_ok_mem :
    ∀ (gs : List (Str × List Question)) (cards : List Card),
      cardsFromGroups gs = .ok cards →
      ∀ c ∈ cards, ∃ g ∈ gs, ∃ ch ∈ chunkList 6 g.2, c = ⟨g.1, ch⟩
        ∧ 6 ≤ ch.length ∧ (ch.map Question.subject).Nodup := by
  intro gs
  induction gs with
  | nil =>
    intro cards h c hc
    have : ([] : List Card) = cards := Except.ok.inj h
    subst this
    simp at hc
  | cons g gs ih =>
    intro cards h c hc
    rw [show cardsFromGroups (g :: gs)
        = match cardsOfLevel g.1 (chunkList 6 g.2) 1 with
          | .error e => .error e
          | .ok cs =>
            match cardsFromGroups gs with
            | .error e => .error e
            | .ok rest => .ok (cs ++ rest) from rfl] at h
    cases h1 : cardsOfLevel g.1 (chunkList 6 g.2) 1 with
    | error e => rw [h1] at h; exact absurd h (by simp)
    | ok cs =>
      rw [h1] at h
      cases h2 : cardsFromGroups gs with
      | error e => rw [h2] at h; exact absurd h (by simp)
      | ok rest =>
        rw [h2] at h
        have : cs ++ rest = cards := Except.ok.inj h
        subst this
        rcases List.mem_append.mp hc with hcc | hcc
        · obtain ⟨ch, hch, hrest⟩ := cardsOfLevel_ok_mem g.1 _ 1 cs h1 c hcc
          exact ⟨g, List.mem_cons_self g gs, ch, hch, hrest⟩
        · obtain ⟨g', hg', rest'⟩ := ih rest h2 c hcc
          exact ⟨g', List.mem_cons_of_mem g hg', rest'⟩

/-- C3: every card returned by `load_cards_from_csv` has exactly 6
questions, pairwise-distinct subject codes, and only nonempty subject
codes; the loader fails rather than returning a violating card. -/
theorem load_cards_from_csv_invariants (rows : List CsvRow)
    (cards : List Card) (h : load_cards_from_csv rows = .ok cards) :
    ∀ c ∈ cards, c.questions.length = 6
      ∧ (c.questions.map Question.subject).Nodup
      ∧ ∀ q ∈ c.questions, q.subject ≠ [] := by
  unfold load_cards_from_csv at h
  cases hbg : buildGroups rows [] with
  | error e => rw [hbg] at h; exact absurd h (by simp)
  | ok gs =>
    rw [hbg] at h
    intro c hc
    obtain ⟨g, hg, ch, hch, hceq, h6, hnd⟩ := cardsFromGroups_ok_mem gs cards h c hc
    subst hceq
    refine ⟨?_, hnd, ?_⟩
    · have hle := chunkList_mem_le (k := 6) (by omega) g.2 ch hch
      show ch.length = 6
      omega
    · intro q hq
      have hqg : q ∈ g.2 := chunkList_mem_subset (k := 6) (by omega) g.2 ch hch q hq
      exact buildGroups_subjects rows [] gs hbg (by simp) g hg q hqg

/-- Witness for C3 on a valid six-row input. -/
theorem load_cards_from_csv_invariants_witness :
    load_cards_from_csv exRows = .ok [exCard]
    ∧ exCard.questions.length = 6
    ∧ (exCard.questions.map Question.subject).Nodup
    ∧ (⟨['1'], ['q'], ['w']⟩ : Question).subject ≠ [] :=
  ⟨by rfl,
   (load_cards_from_csv_invariants exRows [exCard] (by rfl) exCard
      (by decide)).1,
   (load_cards_from_csv_invariants exRows [exCard] (by rfl) exCard
      (by decide)).2.1,
   (load_cards_from_csv_invariants exRows [exCard] (by rfl) exCard
      (by decide)).2.2 ⟨['1'], ['q'], ['w']⟩ (by decide)⟩

/-- When every chunk is complete and duplicate-free, `cardsOfLevel`
succeeds and emits one card per chunk, in order. -/
lemma cardsOfLevel_all_ok (lvl : Str) :
    ∀ (chs : List (List Question)) (n : ℕ),
      (∀ ch ∈ chs, ¬ ch.length < 6) →
      (∀ ch ∈ chs, (ch.map Question.subject).Nodup) →
      cardsOfLevel lvl chs n = .ok (chs.map (fun ch => ⟨lvl, ch⟩)) := by
  intro chs
  induction chs with
  | nil => intro n _ _; rfl
  | cons ch chs ih =>
    intro n h6 hnd
    rw [show cardsOfLevel lvl (ch :: chs) n
        = if ch.length < 6 then .error (.incompleteCard lvl n ch.length)
          else if (ch.map Question.subject).Nodup then
            match cardsOfLevel lvl chs (n + 1) with
            | .error e => .error e
            | .ok rest => .ok (⟨lvl, ch⟩ :: rest)
          else .error (.duplicateSubject lvl n) from rfl]
    rw [if_neg (h6 ch (List.mem_cons_self ch chs))]
    rw [if_pos (hnd ch (List.mem_cons_self ch chs))]
    rw [ih (n + 1) (fun c hc => h6 c (List.mem_cons_of_mem ch hc))
      (fun c hc => hnd c (List.mem_cons_of_mem ch hc))]
    rfl

/-- When the level's question count is not a multiple of 6 (and every
complete chunk is duplicate-free), `cardsOfLevel` on the level's chunks
fails with an incomplete-card error. -/
lemma cardsOfLevel_incomplete (lvl : Str) :
    ∀ (qs : List Question) (n : ℕ),
      ¬ (6 ∣ qs.length) →
      (∀ ch ∈ chunkList 6 qs, ch.length = 6 → (ch.map Question.subject).Nodup) →
      ∃ i m, cardsOfLevel lvl (chunkList 6 qs) n
        = .error (.incompleteCard lvl i m) := by
  suffices h : ∀ (len : ℕ) (qs : List Question) (n : ℕ), qs.length = len →
      ¬ (6 ∣ qs.length) →
      (∀ ch ∈ chunkList 6 qs, ch.length = 6 → (ch.map Question.subject).Nodup) →
      ∃ i m, cardsOfLevel lvl (chunkList 6 qs) n
        = .error (.incompleteCard lvl i m) from
    fun qs n => h qs.length qs n rfl
  intro len
  induction len using Nat.strong_induction_on with
  | _ len ih =>
    intro qs n hlen hdvd hnd
    subst hlen
    cases qs with
    | nil => exact absurd (dvd_zero 6) hdvd
    | cons q qs' =>
      rw [chunkList_cons (by omega)]
      rcases lt_or_ge (q :: qs').length 6 with hlt | hge
      · have htake : (q :: qs').take 6 = q :: qs' := List.take_of_length_le (by omega)
        rw [htake]
        refine ⟨n, (q :: qs').length, ?_⟩
        rw [show cardsOfLevel lvl ((q :: qs') :: chunkList 6 ((q :: qs').drop 6)) n
            = if (q :: qs').length < 6
              then .error (.incompleteCard lvl n (q :: qs').length)
              else if ((q :: qs').map Question.subject).Nodup then
                match cardsOfLevel lvl (chunkList 6 ((q :: qs').drop 6)) (n + 1) with
                | .error e => .error e
                | .ok rest => .ok (⟨lvl, q :: qs'⟩ :: rest)
              else .error (.duplicateSubject lvl n) from rfl]
        rw [if_pos hlt]
      · have hge' : 6 ≤ qs'.length + 1 := by simpa using hge
        have htl : ((q :: qs').take 6).length = 6 := by
          simp only [List.length_take, List.length_cons]
          omega
        have hmem : (q :: qs').take 6 ∈ chunkList 6 (q :: qs') := by
          rw [chunkList_cons (by omega)]
          exact List.mem_cons_self _ _
        have hnd6 : (((q :: qs').take 6).map Question.subject).Nodup :=
          hnd _ hmem htl
        have hdrop : ¬ (6 ∣ ((q :: qs').drop 6).length) := by
          simp only [List.length_drop]
          intro hc
          exact hdvd (by
            have := Nat.dvd_add hc (dvd_refl 6)
            rwa [Nat.sub_add_cancel hge] at this)
        have hnd' : ∀ ch ∈ chunkList 6 ((q :: qs').drop 6), ch.length = 6 →
            (ch.map Question.subject).Nodup := by
          intro ch hch hchl
          apply hnd ch _ hchl
          rw [chunkList_cons (by omega)]
          exact List.mem_cons_of_mem _ hch
        obtain ⟨i, m, hrec⟩ := ih ((q :: qs').drop 6).length
          (by simp only [List.length_drop, List.length_cons]; omega)
          ((q :: qs').drop 6) (n + 1) rfl hdrop hnd'
        refine ⟨i, m, ?_⟩
        rw [show cardsOfLevel lvl ((q :: qs').take 6 :: chunkList 6 ((q :: qs').drop 6)) n
            = if ((q :: qs').take 6).length < 6
              then .error (.incompleteCard lvl n ((q :: qs').take 6).length)
              else if (((q :: qs').take 6).map Question.subject).Nodup then
                match cardsOfLevel lvl (chunkList 6 ((q :: qs').drop 6)) (n + 1) with
                | .error e => .error e
                | .ok rest => .ok (⟨lvl, (q :: qs').take 6⟩ :: rest)
              else .error (.duplicateSubject lvl n) from rfl]
        rw [if_neg (by omega), if_pos hnd6, hrec]

/-- Unfolding `cardsFromGroups` on a group. -/
lemma cardsFromGroups_cons (g : Str × List Question)
    (gs : List (Str × List Question)) :
    cardsFromGroups (g :: gs)
      = match cardsOfLevel g.1 (chunkList 6 g.2) 1 with
        | .error e => .error e
        | .ok cs =>
          match cardsFromGroups gs with
          | .error e => .error e
          | .ok rest => .ok (cs ++ rest) := by
  cases g
  rfl

/-- When every level count is a multiple of 6 and every chunk is
duplicate-free, `cardsFromGroups` succeeds with the cards of all chunks
in group order. -/
lemma cardsFromGroups_all_ok :
    ∀ gs : List (Str × List Question),
      (∀ g ∈ gs, 6 ∣ g.2.length) →
      (∀ g ∈ gs, ∀ ch ∈ chunkList 6 g.2, (ch.map Question.subject).Nodup) →
      cardsFromGroups gs
        = .ok (gs.flatMap (fun g =>
            (chunkList 6 g.2).map (fun ch => ⟨g.1, ch⟩))) := by
  intro gs
  induction gs with
  | nil => intro _ _; rfl
  | cons g gs ih =>
    intro hdvd hnd
    rw [cardsFromGroups_cons]
    rw [cardsOfLevel_all_ok g.1 (chunkList 6 g.2) 1
      (fun ch hch => by
        have := chunkList_mem_eq (k := 6) (by omega) g.2 ch
          (hdvd g (List.mem_cons_self g gs)) hch
        omega)
      (fun ch hch => hnd g (List.mem_cons_self g gs) ch hch)]
    rw [ih (fun g' hg' => hdvd g' (List.mem_cons_of_mem g hg'))
      (fun g' hg' => hnd g' (List.mem_cons_of_mem g hg'))]
    rw [List.flatMap_cons]

/-- When every complete chunk is duplicate-free but some level count is
not a multiple of 6, `cardsFromGroups` fails with an incomplete-card
error. -/
lemma cardsFromGroups_incomplete :
    ∀ gs : List (Str × List Question),
      (∀ g ∈ gs, ∀ ch ∈ chunkList 6 g.2, ch.length = 6 →
        (ch.map Question.subject).Nodup) →
      (∃ g ∈ gs, ¬ (6 ∣ g.2.length)) →
      ∃ lvl i m, cardsFromGroups gs = .error (.incompleteCard lvl i m) := by
  intro gs
  induction gs with
  | nil => intro _ h; simp at h
  | cons g gs ih =>
    intro hnd hbad
    rw [cardsFromGroups_cons]
    by_cases hd : 6 ∣ g.2.length
    · have hok := cardsOfLevel_all_ok g.1 (chunkList 6 g.2) 1
        (fun ch hch => by
          have := chunkList_mem_eq (k := 6) (by omega) g.2 ch hd hch
          omega)
        (fun ch hch => hnd g (List.mem_cons_self g gs) ch hch
          (chunkList_mem_eq (k := 6) (by omega) g.2 ch hd hch))
      rw [hok]
      have hbad' : ∃ g' ∈ gs, ¬ (6 ∣ g'.2.length) := by
        obtain ⟨g', hg', hb⟩ := hbad
        rcases List.mem_cons.mp hg' with h | h
        · subst h
          exact absurd hd hb
        · exact ⟨g', h, hb⟩
      obtain ⟨lvl, i, m, herr⟩ := ih
        (fun g' hg' => hnd g' (List.mem_cons_of_mem g hg')) hbad'
      rw [herr]
      exact ⟨lvl, i, m, rfl⟩
    · obtain ⟨i, m, herr⟩ := cardsOfLevel_incomplete g.1 g.2 1 hd
        (fun ch hch hchl => hnd g (List.mem_cons_self g gs) ch hch hchl)
      rw [herr]
      exact ⟨g.1, i, m, rfl⟩

/-- The total card count over the groups: one card per 6 questions. -/
lemma flatMap_cards_length (gs : List (Str × List Question))
    (hdvd : ∀ g ∈ gs, 6 ∣ g.2.length) :
    (gs.flatMap (fun g =>
        (chunkList 6 g.2).map (fun ch => (⟨g.1, ch⟩ : Card)))).length
      = (gs.map (fun g => g.2.length / 6)).sum := by
  induction gs with
  | nil => rfl
  | cons g gs ih =>
    rw [List.flatMap_cons, List.length_append, List.length_map,
      List.map_cons, List.sum_cons,
      ih (fun g' hg' => hdvd g' (List.mem_cons_of_mem g hg'))]
    congr 1
    rw [chunkList_length (by omega)]
    obtain ⟨c, hc⟩ := hdvd g (List.mem_cons_self g gs)
    rw [hc]
    rw [show 6 * c + 6 - 1 = 5 + 6 * c from by omega]
    rw [Nat.add_mul_div_left 5 c (by omega)]
    rw [show (5 : ℕ) / 6 = 0 from rfl, Nat.zero_add]
    rw [Nat.mul_div_cancel_left c (by omega)]

/-- C4 (amended): with nonempty subjects throughout (equivalently, a
successful grouping pass) and distinct subjects within every complete
chunk of 6, the loader returns exactly `sum over levels of count/6`
cards, formed from consecutive chunks of 6 questions in original order
with levels in first-seen order, when every level count is a multiple of
6; and fails with an incomplete-card error when some level count is not.
(The claim as stated, without the nonempty-subject qualification on the
failure branch, is refuted by
`load_cards_from_csv_count_counterexample`.) -/
theorem load_cards_from_csv_count (rows : List CsvRow)
    (gs : List (Str × List Question))
    (hbg : buildGroups rows [] = .ok gs)
    (hnd : ∀ g ∈ gs, ∀ ch ∈ chunkList 6 g.2, ch.length = 6 →
      (ch.map Question.subject).Nodup) :
    ((∀ g ∈ gs, 6 ∣ g.2.length) →
      load_cards_from_csv rows
          = .ok (gs.flatMap (fun g =>
              (chunkList 6 g.2).map (fun ch => ⟨g.1, ch⟩)))
      ∧ (gs.flatMap (fun g =>
            (chunkList 6 g.2).map (fun ch => (⟨g.1, ch⟩ : Card)))).length
          = (gs.map (fun g => g.2.length / 6)).sum)
    ∧ ((∃ g ∈ gs, ¬ (6 ∣ g.2.length)) →
      ∃ lvl i m, load_cards_from_csv rows
          = .error (.incompleteCard lvl i m)) := by
  constructor
  · intro hall
    constructor
    · unfold load_cards_from_csv
      rw [hbg]
      exact cardsFromGroups_all_ok gs hall
        (fun g hg ch hch => hnd g hg ch hch
          (chunkList_mem_eq (k := 6) (by omega) g.2 ch (hall g hg) hch))
    · exact flatMap_cards_length gs hall
  · intro hbad
    obtain ⟨lvl, i, m, herr⟩ := cardsFromGroups_incomplete gs hnd hbad
    refine ⟨lvl, i, m, ?_⟩
    unfold load_cards_from_csv
    rw [hbg]
    exact herr

/-- Witness for C4 (amended): the six-row input yields exactly one card;
the seven-row input fails with an incomplete-card error. -/
theorem load_cards_from_csv_count_witness :
    (load_cards_from_csv exRows
        = .ok (exGroups.flatMap (fun g =>
            (chunkList 6 g.2).map (fun ch => ⟨g.1, ch⟩))))
    ∧ (∃ lvl i m, load_cards_from_csv exRowsSeven
        = .error (.incompleteCard lvl i m)) :=
  ⟨((load_cards_from_csv_count exRows exGroups (by rfl) (by decide)).1
      (by decide)).1,
   (load_cards_from_csv_count exRowsSeven exGroupsSeven (by rfl)
      (by decide)).2
     ⟨(['A'],
       [⟨['1'], ['q'], ['w']⟩, ⟨['2'], ['q'], ['w']⟩, ⟨['3'], ['q'], ['w']⟩,
        ⟨['4'], ['q'], ['w']⟩, ⟨['5'], ['q'], ['w']⟩, ⟨['6'], ['q'], ['w']⟩,
        ⟨['7'], ['q'], ['w']⟩]),
      by decide, by decide⟩⟩

/-- C4 counterexample: a one-row input whose level count (1) is not a
multiple of 6, but whose subject field is empty — the loader fails with
the empty-subject error, not an incomplete-card error, refuting the
claim's unqualified failure branch. -/
theorem load_cards_from_csv_count_counterexample :
    load_cards_from_csv exRowsEmptySubject = .error .emptySubject
    ∧ isIncompleteErr .emptySubject = false :=
  ⟨by rfl, by rfl⟩

/-- Length of a `flatMap` whose pieces all have the same length. -/
lemma length_flatMap_const {α β : Type} (l : List α) (f : α → List β) (c : ℕ)
    (h : ∀ a ∈ l, (f a).length = c) : (l.flatMap f).length = c * l.length := by
  induction l with
  | nil => simp
  | cons a as ih =>
    rw [List.flatMap_cons, List.length_append,
      h a (List.mem_cons_self a as),
      ih (fun a' ha' => h a' (List.mem_cons_of_mem a ha')),
      List.length_cons, Nat.mul_succ]
    omega

/-- C1: for every card list, layout config (with a nonempty grid, the
data-model invariant `cols, rows ≥ 1`) and print mode, rendering emits
`1` page per batch under `SingleSided` — and then no back page at all —
and `2` pages per batch (front then back) under either duplex mode,
where the number of batches is `ceil(card_count / (cols*rows))`,
written `(card_count + cols*rows - 1) / (cols*rows)` in ℕ. -/
theorem render_pdf_page_count (mode : PrintMode) (cards : List Card)
    (cfg : LayoutConfig) (hk : 0 < cfg.cols * cfg.rows) :
    (renderPdf mode cards cfg).length
      = (if mode = PrintMode.singleSided then 1 else 2)
        * ((cards.length + cfg.cols * cfg.rows - 1) / (cfg.cols * cfg.rows))
    ∧ (mode = PrintMode.singleSided →
        ∀ pg ∈ renderPdf mode cards cfg, ∃ pcs, pg = RenderedPage.front pcs) := by
  constructor
  · unfold renderPdf
    dsimp only
    rw [length_flatMap_const _ _ (if mode = PrintMode.singleSided then 1 else 2)
      (fun batch _ => by cases mode <;> rfl)]
    rw [chunkList_length hk]
  · intro hm pg hpg
    subst hm
    unfold renderPdf at hpg
    dsimp only at hpg
    obtain ⟨batch, _, hpg2⟩ := List.mem_flatMap.mp hpg
    exact ⟨_, by simpa using hpg2⟩

/-- Witness for C1: one card on the default 2x4 grid, single-sided. -/
theorem render_pdf_page_count_witness :
    0 < exCfg.cols * exCfg.rows
    ∧ (renderPdf .singleSided [exCardEmpty] exCfg).length
        = (if PrintMode.singleSided = PrintMode.singleSided then 1 else 2)
          * (([exCardEmpty] : List Card).length + exCfg.cols * exCfg.rows - 1)
            / (exCfg.cols * exCfg.rows) :=
  ⟨by decide,
   (render_pdf_page_count .singleSided [exCardEmpty] exCfg (by decide)).1⟩

/-- `getD` on a replicate of empty strings is always empty. -/
lemma replicate_nil_getD (k j : ℕ) :
    (List.replicate k ([] : Str)).getD j [] = [] := by
  induction k generalizing j with
  | zero => cases j <;> rfl
  | succ k ih =>
    cases j with
    | zero => rfl
    | succ j => exact ih j

/-- The headerless loop fails at the first row with fewer than 4
columns, naming its 1-based position. -/
lemma noHeaderLoop_short :
    ∀ (l : List (List Str)) (k idx : ℕ) (r : List Str),
      l.get? k = some r → r.length < 4 →
      (∀ k' r', k' < k → l.get? k' = some r' → 4 ≤ r'.length) →
      noHeaderLoop l idx = .error (.shortRow (idx + k) r.length) := by
  intro l
  induction l with
  | nil =>
    intro k idx r hget _ _
    have hnone : ([] : List (List Str)).get? k = none := by cases k <;> rfl
    rw [hnone] at hget
    exact absurd hget (by simp)
  | cons r0 rs ih =>
    intro k idx r hget hlen hprev
    cases k with
    | zero =>
      have hr : r0 = r := by simpa using hget
      subst hr
      rw [show noHeaderLoop (r0 :: rs) idx
          = if r0.length < 4 then .error (.shortRow idx r0.length)
            else match noHeaderLoop rs (idx + 1) with
              | .error e => .error e
              | .ok rest => .ok (⟨_clean (r0.getD 0 []), _clean (r0.getD 1 []),
                  _clean (r0.getD 2 []), _clean (r0.getD 3 [])⟩ :: rest)
          from rfl]
      rw [if_pos hlen, Nat.add_zero]
    | succ k' =>
      have h4 : 4 ≤ r0.length := hprev 0 r0 (by omega) (by rfl)
      have hget' : rs.get? k' = some r := by simpa using hget
      have hprev' : ∀ k'' r', k'' < k' → rs.get? k'' = some r' →
          4 ≤ r'.length :=
        fun k'' r' hk hg => hprev (k'' + 1) r' (by omega) (by simpa using hg)
      have hrec := ih k' (idx + 1) r hget' hlen hprev'
      rw [show noHeaderLoop (r0 :: rs) idx
          = if r0.length < 4 then .error (.shortRow idx r0.length)
            else match noHeaderLoop rs (idx + 1) with
              | .error e => .error e
              | .ok rest => .ok (⟨_clean (r0.getD 0 []), _clean (r0.getD 1 []),
                  _clean (r0.getD 2 []), _clean (r0.getD 3 [])⟩ :: rest)
          from rfl]
      rw [if_neg (by omega), hrec]
      have he : idx + 1 + k' = idx + (k' + 1) := by omega
      rw [he]

/-- C10: in the legacy loader, (a) once the header columns are mapped,
the header path never rejects a data row — every data row becomes a
record; (b) the cells a short row is missing read back as empty strings
after padding; (c) in the headerless path, the first row with fewer than
4 columns makes the load fail with an error naming that row's 1-based
number. -/
theorem legacy_load_paths :
    (∀ (rows0 : List (List Str)) (iL iS iQ iA : ℕ),
      (rows0.filter (fun r => r.any (fun c => !(_clean c).isEmpty))) ≠ [] →
      find_col (((rows0.filter (fun r =>
          r.any (fun c => !(_clean c).isEmpty))).headD []).map lowerStrip)
        levelAliases = .ok iL →
      find_col (((rows0.filter (fun r =>
          r.any (fun c => !(_clean c).isEmpty))).headD []).map lowerStrip)
        subjectAliases = .ok iS →
      find_col (((rows0.filter (fun r =>
          r.any (fun c => !(_clean c).isEmpty))).headD []).map lowerStrip)
        questionAliases = .ok iQ →
      find_col (((rows0.filter (fun r =>
          r.any (fun c => !(_clean c).isEmpty))).headD []).map lowerStrip)
        answerAliases = .ok iA →
      load_cards true rows0
        = .ok (((rows0.filter (fun r =>
            r.any (fun c => !(_clean c).isEmpty))).tail).map
              (headerRecord iL iS iQ iA)))
    ∧ (∀ (r : List Str) (m j : ℕ), r.length ≤ j → (padTo r m).getD j [] = [])
    ∧ (∀ (rows0 : List (List Str)) (k : ℕ) (r : List Str),
      (rows0.filter (fun r => r.any (fun c => !(_clean c).isEmpty))).get? k
          = some r →
      r.length < 4 →
      (∀ k' r', k' < k →
        (rows0.filter (fun r =>
          r.any (fun c => !(_clean c).isEmpty))).get? k' = some r' →
        4 ≤ r'.length) →
      load_cards false rows0 = .error (.shortRow (k + 1) r.length)) := by
  refine ⟨?_, ?_, ?_⟩
  · intro rows0 iL iS iQ iA hne hL hS hQ hA
    unfold load_cards
    dsimp only
    rw [if_neg (by
      simp only [List.isEmpty_iff]
      exact hne)]
    rw [if_pos rfl]
    rw [hL, hS, hQ, hA]
  · intro r m j hj
    unfold padTo
    rw [List.getD_append_right _ _ _ _ hj]
    exact replicate_nil_getD _ _
  · intro rows0 k r hget hlen hprev
    unfold load_cards
    dsimp only
    rw [if_neg (by
      simp only [List.isEmpty_iff]
      intro h0
      rw [h0] at hget
      have : ([] : List (List Str)).get? k = none := by cases k <;> rfl
      rw [this] at hget
      exact absurd hget (by simp))]
    rw [if_neg (by simp)]
    have := noHeaderLoop_short
      (rows0.filter (fun r => r.any (fun c => !(_clean c).isEmpty)))
      k 1 r hget hlen hprev
    rw [show 1 + k = k + 1 from by omega] at this
    exact this

/-- Witness for C10: a headered input whose data row has only 2 of 4
columns still loads (part a); the padded cells read back empty (part b);
a headerless 2-column row fails naming row 1 (part c). -/
theorem legacy_load_paths_witness :
    load_cards true exHeaderRows
        = .ok (((exHeaderRows.filter (fun r =>
            r.any (fun c => !(_clean c).isEmpty))).tail).map
              (headerRecord 0 1 2 3))
    ∧ (padTo [['A'], ['B']] 3).getD 2 [] = []
    ∧ load_cards false exNoHeaderShort
        = .error (.shortRow (0 + 1) ([['A'], ['B']] : List Str).length) :=
  ⟨legacy_load_paths.1 exHeaderRows 0 1 2 3 (by decide)
      (by rfl) (by rfl) (by rfl) (by rfl),
   legacy_load_paths.2.1 [['A'], ['B']] 3 2 (by decide),
   legacy_load_paths.2.2 exNoHeaderShort 0 [['A'], ['B']] (by rfl) (by decide)
      (fun k' r' hk _ => absurd hk (by omega))⟩

end TriviaCards
